import Mathlib

/-!
Shallow embedding of the kubeprom in-memory time-series store
(metric ingestion, retention, querying adapter and result
materialization) together with proofs about its behaviour.

Go machine types are modelled as follows: int64 timestamps as Int,
float64 sample values as Rat (no claim performs float arithmetic; values
are only copied around, so an exact numeric type is a faithful model),
Go maps as association lists updated by mapAssign, and Go slices as
lists.
-/

/-- A single label: a (name, value) string pair, modelling
prometheus labels.Label. -/
structure Label where
  Name : String
  Value : String
deriving DecidableEq, Repr

/-- A single data point of a series: (timestamp in ms, value). -/
structure Sample where
  Timestamp : Int
  Value : Rat
deriving DecidableEq, Repr

/-- A time series: its (sorted) label set and its samples. -/
structure TimeSeries where
  SeriesLabels : List Label
  Samples : List Sample
deriving DecidableEq, Repr

/-- A single row produced by the result materializer
(convertPromQLResult); Labels models the Go map[string]string. -/
structure MetricResult where
  MetricName : String
  Labels : List (String × String)
  Value : Rat
  Timestamp : Int
deriving DecidableEq, Repr

/-- Models Go map assignment m[k] = v on a map represented as an
association list: replace the binding if the key is present, otherwise
add it. -/
def mapAssign {β : Type} : List (String × β) → String → β → List (String × β)
  | [], k, v => [(k, v)]
  | (k', v') :: rest, k, v =>
    if k' = k then (k, v) :: rest else (k', v') :: mapAssign rest k v

/-- Models labels.Get: the value of the label with the given name, or
the empty string when the label is absent. -/
def labelsGet (lbls : List Label) (name : String) : String :=
  match lbls.find? (fun l => l.Name == name) with
  | some l => l.Value
  | none => ""

/-- The label map emitted for one sample or series by
convertPromQLResult: the Go loop
`for _, label := range sample.Metric { Labels[label.Name] = label.Value }`. -/
def buildLabelMap (lbls : List Label) : List (String × String) :=
  lbls.foldl (fun m l => mapAssign m l.Name l.Value) []

/-- One element of a promql.Vector: an instant sample with its metric
labels, timestamp T and float value F. -/
structure VectorSample where
  Metric : List Label
  T : Int
  F : Rat
deriving DecidableEq, Repr

/-- One float point of a promql.Series (fields T and F). -/
structure FPoint where
  T : Int
  F : Rat
deriving DecidableEq, Repr

/-- One element of a promql.Matrix: a series with its metric labels and
its float points. -/
structure MatrixSeries where
  Metric : List Label
  Floats : List FPoint
deriving DecidableEq, Repr

/-- The dynamic type of promql.Result.Value. The evaluator hands the
materializer one of Vector, Scalar, Matrix, or some other shape
(promql.String, nil, ...); the constructor `other` stands for every
shape that is none of the three supported ones. -/
inductive PromValue where
  | vector (v : List VectorSample)
  | scalar (t : Int) (v : Rat)
  | matrix (m : List MatrixSeries)
  | other
deriving DecidableEq, Repr

/-- convertPromQLResult: flattens the evaluator's typed result into
MetricResult rows, or fails on an unsupported result shape. Direct
translation of the switch in the Go source. -/
def convertPromQLResult : PromValue → Except String (List MetricResult)
  | PromValue.vector v =>
    Except.ok (v.map fun sample =>
      { MetricName := labelsGet sample.Metric "__name__"
        Labels := buildLabelMap sample.Metric
        Value := sample.F
        Timestamp := sample.T })
  | PromValue.scalar t val =>
    Except.ok [{ MetricName := "scalar", Labels := [], Value := val, Timestamp := t }]
  | PromValue.matrix m =>
    Except.ok (m.filterMap fun series =>
      match series.Floats.getLast? with
      | some latest =>
        some { MetricName := labelsGet series.Metric "__name__"
               Labels := buildLabelMap series.Metric
               Value := latest.F
               Timestamp := latest.T }
      | none => none)
  | PromValue.other =>
    Except.error "unsupported result type"

/-- The five wire metric types of dto.MetricType used by the store. -/
inductive MetricType where
  | COUNTER
  | GAUGE
  | HISTOGRAM
  | SUMMARY
  | UNTYPED
deriving DecidableEq, Repr

/-- One dto.Metric instance: its label pairs and its typed value
fields, each of which may be nil (None). Histogram and summary carry
their SampleCount. -/
structure Metric where
  Label : List Label
  counter : Option Rat
  gauge : Option Rat
  histogramSampleCount : Option Nat
  summarySampleCount : Option Nat
  untyped : Option Rat
deriving DecidableEq, Repr

/-- One dto.MetricFamily: its declared type and its metric instances. -/
structure MetricFamily where
  type : MetricType
  metric : List Metric
deriving DecidableEq, Repr

/-- The MetricStore's series map (map[string]*TimeSeries), modelled as
an association list from series key to series. -/
abbrev Store : Type := List (String × TimeSeries)

/-- Sorting of a label slice by name, modelling
`sort.Slice(lbls, func(i, j int) bool { return lbls[i].Name < lbls[j].Name })`.
Go's sort is unstable; on label sets with pairwise distinct names (the
only case the claims concern) every name-sort produces the same list,
so stable mergeSort is a faithful model there. -/
def sortLabels (l : List Label) : List Label :=
  l.mergeSort fun a b => decide (a.Name ≤ b.Name)

/-- labels.Labels.String(): the canonical rendering of a label list,
used by the store as the series key. -/
def labelsString (lbls : List Label) : String :=
  "\x7b" ++
    String.intercalate ", "
      (lbls.map fun l => l.Name ++ "=\"" ++ l.Value ++ "\"") ++
    "\x7d"

/-- The series key derived for one metric instance: prepend the
__name__ label to the instance labels, sort by name, render. -/
def seriesKeyOf (metricName : String) (instanceLabels : List Label) : String :=
  labelsString (sortLabels (⟨"__name__", metricName⟩ :: instanceLabels))

/-- Value extraction from a metric instance according to its family's
declared type (the switch over family.GetType()); a nil value field
leaves the value at its zero default. -/
def extractValue (ftype : MetricType) (m : Metric) : Rat :=
  match ftype with
  | MetricType.COUNTER =>
    match m.counter with
    | some v => v
    | none => 0
  | MetricType.GAUGE =>
    match m.gauge with
    | some v => v
    | none => 0
  | MetricType.HISTOGRAM =>
    match m.histogramSampleCount with
    | some c => (c : Rat)
    | none => 0
  | MetricType.SUMMARY =>
    match m.summarySampleCount with
    | some c => (c : Rat)
    | none => 0
  | MetricType.UNTYPED =>
    match m.untyped with
    | some v => v
    | none => 0

/-- Append one sample to a series' buffer and apply the retention
policy: keep only the last 1000 samples
(`series.Samples = series.Samples[len(series.Samples)-1000:]`). -/
def retainAppend (samples : List Sample) (s : Sample) : List Sample :=
  let l := samples ++ [s]
  if l.length > 1000 then l.drop (l.length - 1000) else l

/-- Ingestion of one metric instance of one family: build and sort the
label set, derive the series key, look up or create the series, extract
the value, append the sample with the batch timestamp, apply
retention. The body of the inner loop of AddMetricFamilies. -/
def addMetric (ts : Int) (store : Store) (metricName : String)
    (ftype : MetricType) (m : Metric) : Store :=
  let lbls := sortLabels (⟨"__name__", metricName⟩ :: m.Label)
  let seriesKey := labelsString lbls
  let series :=
    match store.lookup seriesKey with
    | some s => s
    | none => { SeriesLabels := lbls, Samples := [] }
  let value := extractValue ftype m
  let samples := retainAppend series.Samples { Timestamp := ts, Value := value }
  mapAssign store seriesKey { SeriesLabels := series.SeriesLabels, Samples := samples }

/-- AddMetricFamilies: ingest a whole batch. The Go function takes the
timestamp once (time.Now().UnixMilli()) at the start of the batch;
here that timestamp is the parameter ts. The Go map of families is
modelled as an association list (no claim depends on iteration
order). -/
def AddMetricFamilies (store : Store) (families : List (String × MetricFamily))
    (ts : Int) : Store :=
  families.foldl
    (fun st p => p.2.metric.foldl (fun st2 m => addMetric ts st2 p.1 p.2.type m) st)
    store

/-- A label matcher: its label name and its Matches predicate.
prometheus labels.Matcher's Matches (exact / negated / regex /
negated-regex, implemented in the prometheus library, outside this
repository) is modelled as an abstract boolean predicate on the label
value. -/
structure Matcher where
  Name : String
  Matches : String → Bool

/-- matchesLabels: a series matches iff every matcher accepts the
series' value for the matcher's name (labels.Get returning "" for an
absent label). -/
def matchesLabels (seriesLabels : List Label) (matchers : List Matcher) : Bool :=
  matchers.all fun m => m.Matches (labelsGet seriesLabels m.Name)

/-- labels.Compare as a boolean less-or-equal: lexicographic over the
sorted (name, value) pairs; used by Select for sorted output. -/
def labelsLe : List Label → List Label → Bool
  | [], _ => true
  | _ :: _, [] => false
  | a :: as, b :: bs =>
    if a.Name < b.Name then true
    else if b.Name < a.Name then false
    else if a.Value < b.Value then true
    else if b.Value < a.Value then false
    else labelsLe as bs

/-- InMemoryQuerier.Select: walk the index, keep the series matching
all matchers, restrict each to the samples with timestamp in
[mint, maxt], drop series left with no sample, optionally sort by
label set. -/
def Select (store : Store) (mint maxt : Int) (sortSeries : Bool)
    (matchers : List Matcher) : List TimeSeries :=
  let matching := store.filterMap fun p =>
    if matchesLabels p.2.SeriesLabels matchers then
      let filtered := p.2.Samples.filter fun smp =>
        decide (mint ≤ smp.Timestamp) && decide (smp.Timestamp ≤ maxt)
      if 0 < filtered.length then
        some { SeriesLabels := p.2.SeriesLabels, Samples := filtered }
      else none
    else none
  if sortSeries then
    matching.mergeSort fun a b => labelsLe a.SeriesLabels b.SeriesLabels
  else matching

/-- The chunkenc.ValueType returned by iterator operations. -/
inductive ValueType where
  | ValNone
  | ValFloat
  | ValHistogram
  | ValFloatHistogram
deriving DecidableEq, Repr

/-- InMemorySeriesIterator: a sample slice and the current position,
which starts at -1 and may reach len(samples). -/
structure InMemorySeriesIterator where
  samples : List Sample
  current : Int
deriving DecidableEq, Repr

/-- Placeholder sample used only as the default of List.getD in
statements about iterator positions. -/
def dummySample : Sample := { Timestamp := 0, Value := 0 }

/-- The scan of Seek's loop `for i, sample := range it.samples`:
the index of the first sample (at or after position i) whose timestamp
is at least t. -/
def seekLoop : List Sample → Nat → Int → Option Nat
  | [], _, _ => none
  | s :: rest, i, t =>
    if t ≤ s.Timestamp then some i else seekLoop rest (i + 1) t

/-- InMemorySeriesIterator.Seek: position at the first sample with
timestamp at least t and report ValFloat, or at len(samples) reporting
ValNone when no such sample exists. Returns the updated iterator
together with the reported chunkenc.ValueType. -/
def Seek (it : InMemorySeriesIterator) (t : Int) :
    InMemorySeriesIterator × ValueType :=
  match seekLoop it.samples 0 t with
  | some i => ({ samples := it.samples, current := (i : Int) }, ValueType.ValFloat)
  | none =>
    ({ samples := it.samples, current := (it.samples.length : Int) }, ValueType.ValNone)

/-- InMemorySeriesIterator.Next: advance and report whether a sample is
present at the new position. -/
def iterNext (it : InMemorySeriesIterator) : InMemorySeriesIterator × ValueType :=
  let it' : InMemorySeriesIterator := { samples := it.samples, current := it.current + 1 }
  if (it.samples.length : Int) ≤ it'.current then (it', ValueType.ValNone)
  else (it', ValueType.ValFloat)

/-- InMemorySeriesIterator.At: the (timestamp, value) pair at the
current position, or (0, 0) when the position is before the first or
past the last sample. -/
def At (it : InMemorySeriesIterator) : Int × Rat :=
  if h : it.current < 0 ∨ (it.samples.length : Int) ≤ it.current then (0, 0)
  else
    let s := it.samples.get ⟨it.current.toNat, by omega⟩
    (s.Timestamp, s.Value)

/-- InMemorySeriesIterator.AtT: the timestamp at the current position,
or 0 when the position is out of range. -/
def AtT (it : InMemorySeriesIterator) : Int :=
  if h : it.current < 0 ∨ (it.samples.length : Int) ≤ it.current then 0
  else (it.samples.get ⟨it.current.toNat, by omega⟩).Timestamp

/-! ### Lemmas about the map model -/

theorem lookup_mapAssign {β : Type} (m : List (String × β)) (k : String) (v : β)
    (k' : String) :
    (mapAssign m k v).lookup k' = if k' = k then some v else m.lookup k' := by
  induction m with
  | nil =>
    simp only [mapAssign, List.lookup]
    by_cases h : k' = k
    · simp [h]
    · simp [h, beq_eq_false_iff_ne.mpr h]
  | cons p rest ih =>
    obtain ⟨a, b⟩ := p
    by_cases hak : a = k
    · subst hak
      simp only [mapAssign, if_pos rfl, List.lookup]
      by_cases h : k' = a
      · simp [h]
      · simp [h, beq_eq_false_iff_ne.mpr h]
    · simp only [mapAssign, if_neg hak, List.lookup]
      by_cases h : k' = a
      · subst h
        simp [hak]
      · simp [beq_eq_false_iff_ne.mpr h, ih]

theorem lookup_foldl_mapAssign (lbls : List Label)
    (acc : List (String × String)) (nm : String) :
    (((lbls.foldl (fun m l => mapAssign m l.Name l.Value) acc).lookup nm).isSome
      = true) ↔
      (nm ∈ lbls.map Label.Name ∨ ((acc.lookup nm).isSome = true)) := by
  induction lbls generalizing acc with
  | nil => simp
  | cons l rest ih =>
    simp only [List.foldl_cons, ih, lookup_mapAssign, List.map_cons, List.mem_cons]
    by_cases h : nm = l.Name <;> simp [h, or_assoc]

theorem lookup_buildLabelMap_isSome (lbls : List Label) (nm : String) :
    (((buildLabelMap lbls).lookup nm).isSome = true) ↔ nm ∈ lbls.map Label.Name := by
  simpa [buildLabelMap] using lookup_foldl_mapAssign lbls [] nm

/-! ### Result materializer: instant vectors (C1) -/

/-- C1 (counterexample): the claim says the emitted label map excludes
the metric-name label, but convertPromQLResult copies every label of
the sample, __name__ included, into the row's label map. Concretely, a
one-sample vector for the metric "up" produces a row whose label map
still binds "__name__". -/
theorem vector_label_map_keeps_name_label :
    convertPromQLResult
        (PromValue.vector [{ Metric := [{ Name := "__name__", Value := "up" }],
                             T := 5, F := 1 }])
      = Except.ok [{ MetricName := "up", Labels := [("__name__", "up")],
                     Value := 1, Timestamp := 5 }]
    ∧ (([("__name__", "up")] : List (String × String)).lookup "__name__").isSome
        = true := by
  exact ⟨rfl, rfl⟩

/-- C1 (amended): for an instant-vector result, convertPromQLResult
emits exactly one row per sample, with the row's MetricName equal to
the sample's __name__ label value, the row's value and timestamp those
of the sample, and the row's label map binding exactly the label names
of the sample — including __name__ when the sample carries it (the
metric-name label is not excluded from the emitted map; exclusion
happens later in the presentation layer). -/
theorem vector_one_row_per_sample (v : List VectorSample)
    (rows : List MetricResult)
    (h : convertPromQLResult (PromValue.vector v) = Except.ok rows) :
    rows.length = v.length ∧
    ∀ (i : Nat) (s : VectorSample), v[i]? = some s →
      ∃ r : MetricResult, rows[i]? = some r ∧
        r.MetricName = labelsGet s.Metric "__name__" ∧
        r.Value = s.F ∧ r.Timestamp = s.T ∧
        ∀ nm, ((r.Labels.lookup nm).isSome = true) ↔ nm ∈ s.Metric.map Label.Name := by
  simp only [convertPromQLResult, Except.ok.injEq] at h
  subst h
  refine ⟨by simp, ?_⟩
  intro i s hs
  refine ⟨{ MetricName := labelsGet s.Metric "__name__",
            Labels := buildLabelMap s.Metric, Value := s.F, Timestamp := s.T },
    ?_, rfl, rfl, rfl, fun nm => lookup_buildLabelMap_isSome s.Metric nm⟩
  simp [List.getElem?_map, hs]

/-- C1 (witness): the amended theorem applied to a concrete one-sample
vector result. -/
theorem vector_one_row_per_sample_witness :
    ([{ MetricName := "up", Labels := [("__name__", "up")],
        Value := 1, Timestamp := 5 }] : List MetricResult).length
      = ([{ Metric := [{ Name := "__name__", Value := "up" }],
            T := 5, F := 1 }] : List VectorSample).length :=
  (vector_one_row_per_sample
      [{ Metric := [{ Name := "__name__", Value := "up" }], T := 5, F := 1 }]
      [{ MetricName := "up", Labels := [("__name__", "up")], Value := 1, Timestamp := 5 }]
      rfl).1

/-! ### Result materializer: range matrices (C5, C9) -/

/-- C5: for a range-matrix result, convertPromQLResult emits at most
one row per series, and every series with a non-empty float sequence
contributes the row carrying the value and timestamp of the last
(latest) point of that sequence. -/
theorem matrix_row_is_latest (m : List MatrixSeries) (rows : List MetricResult)
    (h : convertPromQLResult (PromValue.matrix m) = Except.ok rows) :
    rows.length ≤ m.length ∧
    ∀ s ∈ m, ∀ p, s.Floats.getLast? = some p →
      ({ MetricName := labelsGet s.Metric "__name__",
         Labels := buildLabelMap s.Metric,
         Value := p.F, Timestamp := p.T } : MetricResult) ∈ rows := by
  simp only [convertPromQLResult, Except.ok.injEq] at h
  subst h
  refine ⟨List.length_filterMap_le _ _, ?_⟩
  intro s hs p hp
  exact List.mem_filterMap.mpr ⟨s, hs, by simp [hp]⟩

/-- C5 (witness): a one-series matrix with two points collapses to the
later point. -/
theorem matrix_row_is_latest_witness :
    ([{ MetricName := "m", Labels := [("__name__", "m")],
        Value := 20, Timestamp := 2 }] : List MetricResult).length
      ≤ ([{ Metric := [{ Name := "__name__", Value := "m" }],
            Floats := [{ T := 1, F := 10 }, { T := 2, F := 20 }] }] :
          List MatrixSeries).length
    ∧ ({ MetricName := labelsGet [{ Name := "__name__", Value := "m" }] "__name__",
         Labels := buildLabelMap [{ Name := "__name__", Value := "m" }],
         Value := 20, Timestamp := 2 } : MetricResult)
        ∈ ([{ MetricName := "m", Labels := [("__name__", "m")],
              Value := 20, Timestamp := 2 }] : List MetricResult) := by
  have h := matrix_row_is_latest
    [{ Metric := [{ Name := "__name__", Value := "m" }],
       Floats := [{ T := 1, F := 10 }, { T := 2, F := 20 }] }]
    [{ MetricName := "m", Labels := [("__name__", "m")], Value := 20, Timestamp := 2 }]
    rfl
  exact ⟨h.1,
    h.2 { Metric := [{ Name := "__name__", Value := "m" }],
          Floats := [{ T := 1, F := 10 }, { T := 2, F := 20 }] }
      (by simp) { T := 2, F := 20 } rfl⟩

/-- C9: in a range-matrix result a series whose float sequence is empty
contributes no row and no error: the materialization succeeds and the
row count equals the number of series with a non-empty float
sequence. -/
theorem matrix_skips_empty_series (m : List MatrixSeries)
    (rows : List MetricResult)
    (h : convertPromQLResult (PromValue.matrix m) = Except.ok rows) :
    rows.length = (m.filter fun s => !s.Floats.isEmpty).length := by
  simp only [convertPromQLResult, Except.ok.injEq] at h
  subst h
  induction m with
  | nil => rfl
  | cons s rest ih =>
    cases hF : s.Floats with
    | nil => simpa [List.filterMap_cons, List.filter_cons, hF] using ih
    | cons p ps =>
      cases hq : s.Floats.getLast? with
      | none =>
        rw [hF] at hq
        simp at hq
      | some q =>
        have hq' : (p :: ps).getLast? = some q := by
          rw [← hF]
          exact hq
        simpa [List.filterMap_cons, List.filter_cons, hq, hq', hF] using ih

/-- C9 (witness): a two-series matrix, one series empty, yields exactly
one row. -/
theorem matrix_skips_empty_series_witness :
    ([{ MetricName := "m", Labels := [("__name__", "m")],
        Value := 20, Timestamp := 2 }] : List MetricResult).length
      = (([{ Metric := [{ Name := "__name__", Value := "m" }],
             Floats := [{ T := 1, F := 10 }, { T := 2, F := 20 }] },
           { Metric := [{ Name := "__name__", Value := "gone" }], Floats := [] }] :
           List MatrixSeries).filter fun s => !s.Floats.isEmpty).length :=
  matrix_skips_empty_series
    [{ Metric := [{ Name := "__name__", Value := "m" }],
       Floats := [{ T := 1, F := 10 }, { T := 2, F := 20 }] },
     { Metric := [{ Name := "__name__", Value := "gone" }], Floats := [] }]
    [{ MetricName := "m", Labels := [("__name__", "m")], Value := 20, Timestamp := 2 }]
    rfl

/-! ### Result materializer: unsupported shapes (C6) -/

/-- C6: a result whose value is none of the three supported shapes is
surfaced as an unsupported-result error, so no row list is ever
produced for it and the shape is not silently dropped. -/
theorem unsupported_result_is_error :
    convertPromQLResult PromValue.other = Except.error "unsupported result type" :=
  rfl

/-! ### Series iterator: total accessors (C10) -/

/-- C10: At and AtT are total: at any position before the first sample
(current < 0, in particular the initial -1) or past the last one
(current ≥ len), At returns the default pair (0, 0) and AtT returns 0
instead of failing. -/
theorem at_total_out_of_range (it : InMemorySeriesIterator)
    (h : it.current < 0 ∨ (it.samples.length : Int) ≤ it.current) :
    At it = (0, 0) ∧ AtT it = 0 := by
  unfold At AtT
  rw [dif_pos h, dif_pos h]
  exact ⟨rfl, rfl⟩

/-- C10 (witness): the freshly created iterator (current = -1) over a
one-sample list returns the defaults. -/
theorem at_total_out_of_range_witness :
    At { samples := [{ Timestamp := 7, Value := 3 }], current := -1 } = (0, 0)
    ∧ AtT { samples := [{ Timestamp := 7, Value := 3 }], current := -1 } = 0 :=
  at_total_out_of_range
    { samples := [{ Timestamp := 7, Value := 3 }], current := -1 }
    (Or.inl (by decide))

/-! ### Series iterator: Seek (C8) -/

theorem seekLoop_none_iff (l : List Sample) (i : Nat) (t : Int) :
    seekLoop l i t = none ↔ ∀ s ∈ l, s.Timestamp < t := by
  induction l generalizing i with
  | nil => simp [seekLoop]
  | cons a rest ih =>
    rw [seekLoop]
    by_cases h : t ≤ a.Timestamp
    · rw [if_pos h]
      constructor
      · intro hh
        exact absurd hh (by simp)
      · intro hall
        have ha := hall a (by simp)
        omega
    · rw [if_neg h, ih (i + 1)]
      constructor
      · intro hall s' hmem
        rcases List.mem_cons.mp hmem with hEq | hmem'
        · subst hEq
          omega
        · exact hall s' hmem'
      · intro hall s' hmem'
        exact hall s' (List.mem_cons_of_mem a hmem')

theorem seekLoop_some (l : List Sample) (i : Nat) (t : Int) (j : Nat)
    (h : seekLoop l i t = some j) :
    i ≤ j ∧ j - i < l.length ∧
      t ≤ (l.getD (j - i) dummySample).Timestamp ∧
      ∀ n, n < j - i → (l.getD n dummySample).Timestamp < t := by
  induction l generalizing i with
  | nil => simp [seekLoop] at h
  | cons a rest ih =>
    by_cases hs : t ≤ a.Timestamp
    · rw [seekLoop, if_pos hs] at h
      have hij : i = j := by
        injection h
      subst hij
      refine ⟨Nat.le_refl i, ?_, ?_, ?_⟩
      · simp
      · rw [Nat.sub_self]
        simpa using hs
      · intro n hn
        omega
    · rw [seekLoop, if_neg hs] at h
      obtain ⟨h1, h2, h3, h4⟩ := ih (i + 1) h
      refine ⟨by omega, ?_, ?_, ?_⟩
      · simp only [List.length_cons]
        omega
      · have hsplit : j - i = (j - (i + 1)) + 1 := by omega
        rw [hsplit]
        simpa using h3
      · intro n hn
        match n with
        | 0 =>
          have : a.Timestamp < t := by omega
          simpa using this
        | Nat.succ m =>
          have hm : m < j - (i + 1) := by omega
          simpa using h4 m hm

/-- C8: Seek(t) positions the iterator (whose sample list is left
unchanged) at the first sample with timestamp ≥ t and reports ValFloat;
when no sample has timestamp ≥ t it positions the iterator at
len(samples) and reports ValNone. -/
theorem seek_first_at_least (it : InMemorySeriesIterator) (t : Int) :
    (Seek it t).1.samples = it.samples ∧
    ((∃ s ∈ it.samples, t ≤ s.Timestamp) →
      ∃ i : Nat, i < it.samples.length ∧
        (Seek it t).1.current = (i : Int) ∧
        (Seek it t).2 = ValueType.ValFloat ∧
        t ≤ (it.samples.getD i dummySample).Timestamp ∧
        ∀ n, n < i → (it.samples.getD n dummySample).Timestamp < t) ∧
    ((∀ s ∈ it.samples, s.Timestamp < t) →
      (Seek it t).1.current = (it.samples.length : Int) ∧
      (Seek it t).2 = ValueType.ValNone) := by
  cases hseek : seekLoop it.samples 0 t with
  | none =>
    refine ⟨by simp [Seek, hseek], ?_, ?_⟩
    · intro ⟨s, hmem, hts⟩
      have := (seekLoop_none_iff it.samples 0 t).mp hseek s hmem
      omega
    · intro _
      simp [Seek, hseek]
  | some j =>
    obtain ⟨h1, h2, h3, h4⟩ := seekLoop_some it.samples 0 t j hseek
    simp only [Nat.sub_zero] at h2 h3 h4
    refine ⟨by simp [Seek, hseek], ?_, ?_⟩
    · intro _
      exact ⟨j, h2, by simp [Seek, hseek], by simp [Seek, hseek], h3, h4⟩
    · intro hall
      have hmem : it.samples.getD j dummySample ∈ it.samples := by
        rw [List.getD_eq_getElem?_getD, List.getElem?_eq_getElem h2]
        simp [List.getElem_mem h2]
      have := hall (it.samples.getD j dummySample) hmem
      omega

/-- C8 (witness): seeking to t = 15 in a series sampled at 10, 20, 30
lands on index 1 (the sample at t = 20) and reports ValFloat. -/
theorem seek_first_at_least_witness :
    ∃ i : Nat,
      i < ([{ Timestamp := 10, Value := 1 }, { Timestamp := 20, Value := 2 },
            { Timestamp := 30, Value := 3 }] : List Sample).length ∧
      (Seek { samples := [{ Timestamp := 10, Value := 1 }, { Timestamp := 20, Value := 2 },
                          { Timestamp := 30, Value := 3 }], current := -1 } 15).1.current = (i : Int) ∧
      (Seek { samples := [{ Timestamp := 10, Value := 1 }, { Timestamp := 20, Value := 2 },
                          { Timestamp := 30, Value := 3 }], current := -1 } 15).2 = ValueType.ValFloat ∧
      15 ≤ (([{ Timestamp := 10, Value := 1 }, { Timestamp := 20, Value := 2 },
              { Timestamp := 30, Value := 3 }] : List Sample).getD i dummySample).Timestamp ∧
      ∀ n, n < i →
        (([{ Timestamp := 10, Value := 1 }, { Timestamp := 20, Value := 2 },
           { Timestamp := 30, Value := 3 }] : List Sample).getD n dummySample).Timestamp < 15 :=
  (seek_first_at_least
      { samples := [{ Timestamp := 10, Value := 1 }, { Timestamp := 20, Value := 2 },
                    { Timestamp := 30, Value := 3 }], current := -1 } 15).2.1
    ⟨{ Timestamp := 20, Value := 2 }, by simp, by decide⟩

/-! ### Query adapter: Select (C4) -/

/-- C4: Select returns exactly the series for which every supplied
matcher accepts the series' value for the matcher's label name (an
absent label matching as the empty string, via labelsGet), each
returned series carrying exactly the samples with timestamp in
[mint, maxt]; a matching series with no sample in range is excluded
entirely, never returned empty. Holds for both the sorted and the
unsorted mode. -/
theorem select_mem_iff (st : Store) (mint maxt : Int) (sortSeries : Bool)
    (ms : List Matcher) (ts' : TimeSeries) :
    ts' ∈ Select st mint maxt sortSeries ms ↔
      ∃ p ∈ st, matchesLabels p.2.SeriesLabels ms = true ∧
        ts'.SeriesLabels = p.2.SeriesLabels ∧
        ts'.Samples = p.2.Samples.filter
          (fun smp => decide (mint ≤ smp.Timestamp) && decide (smp.Timestamp ≤ maxt)) ∧
        ts'.Samples ≠ [] := by
  obtain ⟨tl, tsmp⟩ := ts'
  have hstep : ∀ p : String × TimeSeries,
      ((if matchesLabels p.2.SeriesLabels ms then
          (let filtered := p.2.Samples.filter fun smp =>
              decide (mint ≤ smp.Timestamp) && decide (smp.Timestamp ≤ maxt)
           if 0 < filtered.length then
             some { SeriesLabels := p.2.SeriesLabels, Samples := filtered }
           else none)
        else none) = some (TimeSeries.mk tl tsmp)) ↔
      (matchesLabels p.2.SeriesLabels ms = true ∧
       tl = p.2.SeriesLabels ∧
       tsmp = p.2.Samples.filter
         (fun smp => decide (mint ≤ smp.Timestamp) && decide (smp.Timestamp ≤ maxt)) ∧
       tsmp ≠ []) := by
    intro p
    by_cases hm : matchesLabels p.2.SeriesLabels ms = true
    · rw [if_pos hm]
      by_cases hl : 0 < (p.2.Samples.filter fun smp =>
          decide (mint ≤ smp.Timestamp) && decide (smp.Timestamp ≤ maxt)).length
      · show (if 0 < _ then _ else _) = _ ↔ _
        rw [if_pos hl]
        simp only [Option.some.injEq, TimeSeries.mk.injEq]
        constructor
        · intro ⟨h1, h2⟩
          refine ⟨hm, h1.symm, h2.symm, ?_⟩
          rw [h2] at hl
          exact List.length_pos.mp hl
        · intro ⟨_, h1, h2, _⟩
          exact ⟨h1.symm, h2.symm⟩
      · show (if 0 < _ then _ else _) = _ ↔ _
        rw [if_neg hl]
        constructor
        · intro h
          exact absurd h (by simp)
        · intro ⟨_, h1, h2, h3⟩
          exfalso
          apply h3
          rw [h2]
          have h0 : (p.2.Samples.filter fun smp =>
              decide (mint ≤ smp.Timestamp) && decide (smp.Timestamp ≤ maxt)).length = 0 := by
            omega
          exact List.length_eq_zero.mp h0
    · rw [if_neg hm]
      constructor
      · intro h
        exact absurd h (by simp)
      · intro ⟨h1, _⟩
        exact absurd h1 hm
  unfold Select
  cases sortSeries with
  | false =>
    rw [if_neg (by simp)]
    rw [List.mem_filterMap]
    constructor
    · intro ⟨p, hp, hf⟩
      exact ⟨p, hp, (hstep p).mp hf⟩
    · intro ⟨p, hp, hr⟩
      exact ⟨p, hp, (hstep p).mpr hr⟩
  | true =>
    rw [if_pos rfl]
    rw [List.mem_mergeSort, List.mem_filterMap]
    constructor
    · intro ⟨p, hp, hf⟩
      exact ⟨p, hp, (hstep p).mp hf⟩
    · intro ⟨p, hp, hr⟩
      exact ⟨p, hp, (hstep p).mpr hr⟩

/-- C4 (witness): a two-series store, an exact matcher on job=a over
the window containing only one of each series' samples. -/
theorem select_mem_iff_witness :
    (TimeSeries.mk
        [{ Name := "__name__", Value := "up" }, { Name := "job", Value := "a" }]
        [{ Timestamp := 20, Value := 1 }])
      ∈ Select
          [("k1", TimeSeries.mk
              [{ Name := "__name__", Value := "up" }, { Name := "job", Value := "a" }]
              [{ Timestamp := 10, Value := 0 }, { Timestamp := 20, Value := 1 }]),
           ("k2", TimeSeries.mk
              [{ Name := "__name__", Value := "up" }, { Name := "job", Value := "b" }]
              [{ Timestamp := 20, Value := 2 }])]
          15 25 false [{ Name := "job", Matches := fun v => v == "a" }] :=
  (select_mem_iff
      [("k1", TimeSeries.mk
          [{ Name := "__name__", Value := "up" }, { Name := "job", Value := "a" }]
          [{ Timestamp := 10, Value := 0 }, { Timestamp := 20, Value := 1 }]),
       ("k2", TimeSeries.mk
          [{ Name := "__name__", Value := "up" }, { Name := "job", Value := "b" }]
          [{ Timestamp := 20, Value := 2 }])]
      15 25 false [{ Name := "job", Matches := fun v => v == "a" }]
      (TimeSeries.mk
        [{ Name := "__name__", Value := "up" }, { Name := "job", Value := "a" }]
        [{ Timestamp := 20, Value := 1 }])).mpr
    ⟨("k1", TimeSeries.mk
        [{ Name := "__name__", Value := "up" }, { Name := "job", Value := "a" }]
        [{ Timestamp := 10, Value := 0 }, { Timestamp := 20, Value := 1 }]),
      by simp, rfl, rfl, rfl, by simp⟩

/-! ### Retention policy (C3) -/

/-- The last (at most) 1000 elements of a sample list, in order: what
the retention policy leaves of a buffer. -/
def lastCap (l : List Sample) : List Sample := l.drop (l.length - 1000)

theorem lastCap_eq_reverse (l : List Sample) :
    lastCap l = (l.reverse.take 1000).reverse := by
  unfold lastCap
  rw [List.take_reverse, List.reverse_reverse]

theorem retainAppend_eq_lastCap (xs : List Sample) (x : Sample) :
    retainAppend xs x = lastCap (xs ++ [x]) := by
  simp only [retainAppend, lastCap]
  split
  · rfl
  · rename_i h
    rw [Nat.sub_eq_zero_of_le (by omega), List.drop_zero]

theorem lastCap_append_lastCap (l ys : List Sample) :
    lastCap (lastCap l ++ ys) = lastCap (l ++ ys) := by
  rw [lastCap_eq_reverse (lastCap l ++ ys), lastCap_eq_reverse (l ++ ys)]
  rw [List.reverse_append, List.reverse_append]
  rw [lastCap_eq_reverse l, List.reverse_reverse]
  rw [List.take_append_eq_append_take, List.take_append_eq_append_take]
  rw [List.take_take]
  have hmin : min (1000 - ys.reverse.length) 1000 = 1000 - ys.reverse.length :=
    Nat.min_eq_left (by omega)
  rw [hmin]

theorem lastCap_length_le (l : List Sample) : (lastCap l).length ≤ 1000 := by
  unfold lastCap
  rw [List.length_drop]
  omega

theorem foldl_retainAppend (xs : List Sample) (init : List Sample)
    (hinit : init.length ≤ 1000) :
    xs.foldl retainAppend init = lastCap (init ++ xs) := by
  induction xs generalizing init with
  | nil =>
    simp only [List.foldl_nil, List.append_nil]
    unfold lastCap
    rw [Nat.sub_eq_zero_of_le hinit, List.drop_zero]
  | cons x rest ih =>
    rw [List.foldl_cons]
    rw [ih (retainAppend init x) (by
      rw [retainAppend_eq_lastCap]
      exact lastCap_length_le _)]
    rw [retainAppend_eq_lastCap, lastCap_append_lastCap]
    rw [List.append_assoc]
    rfl

theorem lookup_isSome_foldl {β : Type} (f : Store → β → Store)
    (hf : ∀ st b k, (st.lookup k).isSome = true → ((f st b).lookup k).isSome = true) :
    ∀ (l : List β) (st : Store) (k : String),
      (st.lookup k).isSome = true → ((l.foldl f st).lookup k).isSome = true := by
  intro l
  induction l with
  | nil =>
    intro st k hk
    exact hk
  | cons b rest ih =>
    intro st k hk
    rw [List.foldl_cons]
    exact ih (f st b) k (hf st b k hk)

theorem addMetric_lookup_isSome (ts : Int) (st : Store) (n : String)
    (ft : MetricType) (m : Metric) (k : String)
    (hk : (st.lookup k).isSome = true) :
    ((addMetric ts st n ft m).lookup k).isSome = true := by
  unfold addMetric
  rw [lookup_mapAssign]
  split
  · simp
  · exact hk

/-- C3: appending any sequence of more than 1000 samples to a series
(each ingest step being retainAppend, the append-then-trim step of
AddMetricFamilies) leaves exactly the most recent 1000 samples, in
their original oldest-first order; and AddMetricFamilies never removes
a series from the index — every key present before a batch is still
present after it. -/
theorem retention_keeps_most_recent_cap :
    (∀ xs : List Sample, xs.length > 1000 →
      xs.foldl retainAppend [] = xs.drop (xs.length - 1000) ∧
      (xs.foldl retainAppend []).length = 1000) ∧
    (∀ (st : Store) (fams : List (String × MetricFamily)) (ts : Int) (k : String),
      (st.lookup k).isSome = true →
      ((AddMetricFamilies st fams ts).lookup k).isSome = true) := by
  constructor
  · intro xs hlen
    have h := foldl_retainAppend xs [] (by simp)
    rw [List.nil_append] at h
    have hdrop : xs.foldl retainAppend [] = xs.drop (xs.length - 1000) := h
    refine ⟨hdrop, ?_⟩
    rw [hdrop, List.length_drop]
    omega
  · intro st fams ts k hk
    unfold AddMetricFamilies
    refine lookup_isSome_foldl _ ?_ fams st k hk
    intro st' p k' hk'
    exact lookup_isSome_foldl _
      (fun st2 m k2 h2 => addMetric_lookup_isSome ts st2 p.1 p.2.type m k2 h2)
      p.2.metric st' k' hk'

/-- 1001 distinct-timestamp samples, used to witness the retention
bound. -/
def samples1001 : List Sample :=
  (List.range 1001).map fun i => { Timestamp := Int.ofNat i, Value := 0 }

theorem samples1001_length : samples1001.length = 1001 := by
  unfold samples1001
  rw [List.length_map, List.length_range]

/-- C3 (witness): 1001 samples ingested into one series leave the last
1000 of them. -/
theorem retention_keeps_most_recent_cap_witness :
    (samples1001.foldl retainAppend []
        = samples1001.drop (samples1001.length - 1000)
      ∧ (samples1001.foldl retainAppend []).length = 1000)
    ∧ ((AddMetricFamilies [("k", TimeSeries.mk [] [])] [] 0).lookup "k").isSome
        = true :=
  ⟨retention_keeps_most_recent_cap.1 samples1001
      (by rw [samples1001_length]; omega),
   retention_keeps_most_recent_cap.2 [("k", TimeSeries.mk [] [])] [] 0 "k" rfl⟩

/-! ### Canonical series identity (C2) -/

theorem sortLabels_sorted (l : List Label) :
    (sortLabels l).Pairwise fun a b => a.Name ≤ b.Name := by
  have h : (l.mergeSort fun a b => decide (a.Name ≤ b.Name)).Pairwise
      (fun a b => decide (a.Name ≤ b.Name) = true) :=
    List.sorted_mergeSort
      (fun a b c hab hbc => by
        simp only [decide_eq_true_eq] at hab hbc ⊢
        exact le_trans hab hbc)
      (fun a b => by
        simp only [Bool.or_eq_true, decide_eq_true_eq]
        exact le_total a.Name b.Name)
      l
  exact h.imp fun hab => of_decide_eq_true hab

theorem sortLabels_perm (l : List Label) : List.Perm (sortLabels l) l :=
  List.mergeSort_perm l _

instance : IsAntisymm Label fun a b => a.Name < b.Name :=
  ⟨fun _ _ h1 h2 => (lt_asymm h1 h2).elim⟩

/-- Any two permutations of one label set with pairwise distinct names
sort to the same list: series identity is by content, not by input
order. -/
theorem sortLabels_eq_of_perm (l1 l2 : List Label) (hperm : List.Perm l1 l2)
    (hnd : (l1.map Label.Name).Nodup) : sortLabels l1 = sortLabels l2 := by
  have hp : List.Perm (sortLabels l1) (sortLabels l2) :=
    (sortLabels_perm l1).trans (hperm.trans (sortLabels_perm l2).symm)
  have hstrict : ∀ l : List Label, (l.map Label.Name).Nodup →
      (sortLabels l).Pairwise fun a b => a.Name < b.Name := by
    intro l hl
    have hndS : ((sortLabels l).map Label.Name).Nodup :=
      (((sortLabels_perm l).map Label.Name).nodup_iff).mpr hl
    have hne : (sortLabels l).Pairwise fun a b => a.Name ≠ b.Name :=
      List.pairwise_map.mp hndS
    exact ((sortLabels_sorted l).and hne).imp fun hab =>
      lt_of_le_of_ne hab.1 hab.2
  have hnd2 : (l2.map Label.Name).Nodup := ((hperm.map Label.Name).nodup_iff).mp hnd
  exact List.eq_of_perm_of_sorted hp (hstrict l1 hnd) (hstrict l2 hnd2)

/-- C2: ingesting the same metric name with the same label set twice
(the labels supplied in any order) appends two samples to one single
series: the derived series key is invariant under permutation of the
label pairs, and two successive single-instance ingests into an empty
store produce exactly one series holding both samples. -/
theorem ingest_twice_one_series (metricName : String) (ft1 ft2 : MetricType)
    (m1 m2 : Metric) (ts1 ts2 : Int)
    (hnd : (m1.Label.map Label.Name).Nodup)
    (hnn : "__name__" ∉ m1.Label.map Label.Name)
    (hperm : List.Perm m1.Label m2.Label) :
    seriesKeyOf metricName m2.Label = seriesKeyOf metricName m1.Label ∧
    addMetric ts2 (addMetric ts1 [] metricName ft1 m1) metricName ft2 m2 =
      [(seriesKeyOf metricName m1.Label,
        { SeriesLabels := sortLabels (⟨"__name__", metricName⟩ :: m1.Label),
          Samples := [{ Timestamp := ts1, Value := extractValue ft1 m1 },
                      { Timestamp := ts2, Value := extractValue ft2 m2 }] })] := by
  have hndc : (((⟨"__name__", metricName⟩ : Label) :: m2.Label).map Label.Name).Nodup := by
    rw [List.map_cons]
    refine List.Nodup.cons ?_ (((hperm.map Label.Name).nodup_iff).mp hnd)
    intro hmem
    exact hnn (((hperm.map Label.Name).mem_iff).mpr hmem)
  have hsorteq : sortLabels (⟨"__name__", metricName⟩ :: m2.Label)
      = sortLabels (⟨"__name__", metricName⟩ :: m1.Label) :=
    sortLabels_eq_of_perm _ _ ((hperm.symm).cons _) hndc
  constructor
  · unfold seriesKeyOf
    rw [hsorteq]
  · unfold addMetric
    rw [hsorteq]
    unfold seriesKeyOf
    simp [List.lookup, mapAssign, retainAppend]

/-- C2 (witness): the same two labels supplied in both orders with two
different counter values map to the same series key. -/
theorem ingest_twice_one_series_witness :
    seriesKeyOf "req" [⟨"code", "200"⟩, ⟨"method", "GET"⟩]
      = seriesKeyOf "req" [⟨"method", "GET"⟩, ⟨"code", "200"⟩] :=
  (ingest_twice_one_series "req" MetricType.COUNTER MetricType.COUNTER
      { Label := [⟨"method", "GET"⟩, ⟨"code", "200"⟩], counter := some 5,
        gauge := none, histogramSampleCount := none, summarySampleCount := none,
        untyped := none }
      { Label := [⟨"code", "200"⟩, ⟨"method", "GET"⟩], counter := some 6,
        gauge := none, histogramSampleCount := none, summarySampleCount := none,
        untyped := none }
      1 2 (by decide) (by decide) (by decide)).1

/-! ### Batch timestamp (C7) -/

theorem retainAppend_mem (xs : List Sample) (x s : Sample)
    (h : s ∈ retainAppend xs x) : s ∈ xs ∨ s = x := by
  rw [retainAppend_eq_lastCap] at h
  have hsub : s ∈ xs ++ [x] := List.drop_subset _ _ h
  rcases List.mem_append.mp hsub with h1 | h2
  · exact Or.inl h1
  · exact Or.inr (by simpa using h2)

theorem addMetric_samples (ts : Int) (st : Store) (n : String) (ft : MetricType)
    (m : Metric) (k : String) (s' : TimeSeries)
    (h : (addMetric ts st n ft m).lookup k = some s') :
    ∀ smp ∈ s'.Samples,
      (∃ sOld, st.lookup k = some sOld ∧ smp ∈ sOld.Samples) ∨
      smp.Timestamp = ts := by
  simp only [addMetric, lookup_mapAssign] at h
  split at h
  · rename_i hk
    cases hlook : st.lookup (labelsString (sortLabels (⟨"__name__", n⟩ :: m.Label))) with
    | none =>
      rw [hlook] at h
      injection h with h'
      intro smp hmem
      rw [← h'] at hmem
      dsimp only at hmem
      rcases retainAppend_mem _ _ _ hmem with h1 | h2
      · exact absurd h1 (List.not_mem_nil smp)
      · exact Or.inr (by rw [h2])
    | some sOld =>
      rw [hlook] at h
      injection h with h'
      intro smp hmem
      rw [← h'] at hmem
      dsimp only at hmem
      rcases retainAppend_mem _ _ _ hmem with h1 | h2
      · refine Or.inl ⟨sOld, ?_, h1⟩
        rw [hk]
        exact hlook
      · exact Or.inr (by rw [h2])
  · intro smp hmem
    exact Or.inl ⟨s', h, hmem⟩

theorem foldl_samples {β : Type} (ts : Int) (f : Store → β → Store)
    (hf : ∀ st b k s', (f st b).lookup k = some s' → ∀ smp ∈ s'.Samples,
        (∃ sOld, st.lookup k = some sOld ∧ smp ∈ sOld.Samples) ∨
        smp.Timestamp = ts) :
    ∀ (l : List β) (st : Store) (k : String) (s' : TimeSeries),
      (l.foldl f st).lookup k = some s' → ∀ smp ∈ s'.Samples,
        (∃ sOld, st.lookup k = some sOld ∧ smp ∈ sOld.Samples) ∨
        smp.Timestamp = ts := by
  intro l
  induction l with
  | nil =>
    intro st k s' h smp hm
    exact Or.inl ⟨s', h, hm⟩
  | cons b rest ih =>
    intro st k s' h smp hm
    rw [List.foldl_cons] at h
    rcases ih (f st b) k s' h smp hm with ⟨sMid, hMid, hmemMid⟩ | hts
    · exact hf st b k sMid hMid smp hmemMid
    · exact Or.inr hts

/-- C7: all samples appended by one AddMetricFamilies call carry the
single batch timestamp ts (taken once at the start of the call):
every sample found in the store after the call either was already
present in the same series before the call or has timestamp ts,
whatever the number of families and instances in the batch. -/
theorem batch_samples_share_timestamp (st : Store)
    (fams : List (String × MetricFamily)) (ts : Int) (k : String)
    (s' : TimeSeries)
    (h : (AddMetricFamilies st fams ts).lookup k = some s') :
    ∀ smp ∈ s'.Samples,
      (∃ sOld, st.lookup k = some sOld ∧ smp ∈ sOld.Samples) ∨
      smp.Timestamp = ts := by
  unfold AddMetricFamilies at h
  refine foldl_samples ts _ ?_ fams st k s' h
  intro st1 p k1 s1 h1
  exact foldl_samples ts _
    (fun st2 m2 k2 s2 h2 => addMetric_samples ts st2 p.1 p.2.type m2 k2 s2 h2)
    p.2.metric st1 k1 s1 h1

/-- C7 (witness): one batch with a single gauge instance, ingested at
timestamp 42 into an empty store; the stored sample either came from
the empty store (impossible) or is stamped 42. -/
theorem batch_samples_share_timestamp_witness :
    (∃ sOld, (([] : Store).lookup (seriesKeyOf "up" []) = some sOld
        ∧ ({ Timestamp := 42, Value := 8 } : Sample) ∈ sOld.Samples))
    ∨ ({ Timestamp := 42, Value := 8 } : Sample).Timestamp = 42 :=
  batch_samples_share_timestamp []
    [("up", { type := MetricType.GAUGE,
              metric := [{ Label := [], counter := none, gauge := some 8,
                           histogramSampleCount := none, summarySampleCount := none,
                           untyped := none }] })]
    42 (seriesKeyOf "up" [])
    { SeriesLabels := [⟨"__name__", "up"⟩],
      Samples := [{ Timestamp := 42, Value := 8 }] }
    (by
      simp [AddMetricFamilies, addMetric, seriesKeyOf, sortLabels, retainAppend,
        mapAssign, extractValue, List.lookup])
    { Timestamp := 42, Value := 8 } (by decide)
